import Mathlib

/-!
Verification of the predicate algebra of `src/db/QDjangoWhere.cpp` (QDjango).

The C++ class `QDjangoWhere` holds a pointer to a `QDjangoWherePrivate`
record with fields `key`, `operation`, `data`, `combine`, `negate`,
`children`; operations copy-on-write, so every public operation is a pure
function from trees to trees.  We embed that record as the inductive type
`Where` (mutually with `WhereList`, the embedded `QList<QDjangoWhere>`),
and the member functions `operator!`, `operator&&`, `operator||`,
`bindValues` and `sql` as Lean functions over it.
-/

namespace QDjango

/-- Embeds the `QDjangoWhere::Operation` enumeration. -/
inductive Operation where
  | none
  | equals
  | iEquals
  | notEquals
  | iNotEquals
  | greaterThan
  | lessThan
  | greaterOrEquals
  | lessOrEquals
  | startsWith
  | iStartsWith
  | endsWith
  | iEndsWith
  | contains
  | iContains
  | isIn
  | isNull
deriving DecidableEq

/-- Embeds `QDjangoWherePrivate`'s combine tag (`NoCombine`, `AndCombine`, `OrCombine`). -/
inductive CombineType where
  | noCombine
  | andCombine
  | orCombine
deriving DecidableEq

/-- The database dialects `QDjangoWhere::sql` distinguishes via
`QDjangoDatabase::databaseType`: MySQL, SQLite, PostgreSQL, and every
other driver (which all take the default branches). -/
inductive DatabaseType where
  | mySqlServer
  | sqlite
  | postgreSQL
  | other
deriving DecidableEq

/-- Embeds `QVariant` restricted to the shapes this file manipulates:
invalid, bool, int, string and list variants. -/
inductive Variant where
  | undef
  | bool (b : Bool)
  | int (n : Int)
  | str (s : String)
  | list (l : List Variant)

/-- Embeds `QVariant::toList`: the held list for a list variant, the empty
list for every other variant. -/
def Variant.toList : Variant → List Variant
  | .list l => l
  | _ => []

/-- Embeds `QVariant::toBool`: the held bool; for ints, value distinct from
zero; for strings, neither empty nor "0" nor "false"; false otherwise. -/
def Variant.toBool : Variant → Bool
  | .bool b => b
  | .int n => n != 0
  | .str s => !(s == "" || s == "0" || s == "false")
  | _ => false

/-- Embeds `QVariant::toString`: the held string; decimal text for ints;
"true"/"false" for bools; the empty string otherwise. -/
def Variant.toString : Variant → String
  | .str s => s
  | .int n => ToString.toString n
  | .bool b => if b then "true" else "false"
  | _ => ""

mutual
/-- Embeds `QDjangoWherePrivate`: one record per tree node.  Leaves have
`combine = noCombine` and no children; combine nodes are produced by the
`&&`/`||` operators. -/
inductive Where where
  | mk (key : String) (operation : Operation) (data : Variant)
       (combine : CombineType) (negate : Bool) (children : WhereList)

/-- Embeds `QList<QDjangoWhere>`, the `children` field. -/
inductive WhereList where
  | nil
  | cons (head : Where) (tail : WhereList)
end

namespace WhereList

/-- Embeds `QList::isEmpty` on the children list. -/
def isEmpty : WhereList → Bool
  | .nil => true
  | .cons _ _ => false

/-- Embeds `QList::operator<<` (append one element at the end). -/
def push : WhereList → Where → WhereList
  | .nil, w => .cons w .nil
  | .cons a t, w => .cons a (t.push w)

/-- Length of a children list. -/
def length : WhereList → Nat
  | .nil => 0
  | .cons _ t => 1 + t.length

end WhereList

namespace Where

/-- The `key` field. -/
def key : Where → String
  | .mk k _ _ _ _ _ => k

/-- The `operation` field. -/
def operation : Where → Operation
  | .mk _ op _ _ _ _ => op

/-- The `data` field. -/
def data : Where → Variant
  | .mk _ _ v _ _ _ => v

/-- The `combine` field. -/
def combine : Where → CombineType
  | .mk _ _ _ c _ _ => c

/-- The `negate` field. -/
def negate : Where → Bool
  | .mk _ _ _ _ n _ => n

/-- The `children` field. -/
def children : Where → WhereList
  | .mk _ _ _ _ _ ch => ch

/-- Embeds the default constructor `QDjangoWhere()`: a fresh
`QDjangoWherePrivate` (operation `None`, `NoCombine`, `negate` false). -/
def empty : Where := .mk "" .none .undef .noCombine false .nil

/-- Embeds the public constructor `QDjangoWhere(key, operation, value)`. -/
def leaf (key : String) (operation : Operation) (value : Variant) : Where :=
  .mk key operation value .noCombine false .nil

/-- Embeds `QDjangoWhere::isAll`. -/
def isAll (w : Where) : Bool :=
  w.combine == .noCombine && w.operation == .none && w.negate == false

/-- Embeds `QDjangoWhere::isNone`. -/
def isNone (w : Where) : Bool :=
  w.combine == .noCombine && w.operation == .none && w.negate == true

end Where

/-- Embeds `QDjangoWhere::operator!` (copy-on-write: the result is a fresh
node, alike except for the rewritten field). -/
def wnot (w : Where) : Where :=
  match w with
  | .mk k op v comb neg ch =>
    if ch.isEmpty then
      match op with
      | .none => .mk k op v comb (!neg) ch
      | .isIn => .mk k op v comb (!neg) ch
      | .startsWith => .mk k op v comb (!neg) ch
      | .iStartsWith => .mk k op v comb (!neg) ch
      | .endsWith => .mk k op v comb (!neg) ch
      | .iEndsWith => .mk k op v comb (!neg) ch
      | .contains => .mk k op v comb (!neg) ch
      | .iContains => .mk k op v comb (!neg) ch
      | .isNull => .mk k op (.bool (!v.toBool)) comb neg ch
      | .equals => .mk k .notEquals v comb neg ch
      | .iEquals => .mk k .iNotEquals v comb neg ch
      | .notEquals => .mk k .equals v comb neg ch
      | .iNotEquals => .mk k .iEquals v comb neg ch
      | .greaterThan => .mk k .lessOrEquals v comb neg ch
      | .lessThan => .mk k .greaterOrEquals v comb neg ch
      | .greaterOrEquals => .mk k .lessThan v comb neg ch
      | .lessOrEquals => .mk k .greaterThan v comb neg ch
    else
      .mk k op v comb (!neg) ch

/-- Embeds `QDjangoWhere::operator&&`.  Note the flatten branch tests only
`d->combine == AndCombine`, never `d->negate` (source lines 217-221). -/
def wand (a b : Where) : Where :=
  if a.isAll || b.isNone then b
  else if a.isNone || b.isAll then a
  else if a.combine == .andCombine then
    match a with
    | .mk k op v comb neg ch => .mk k op v comb neg (ch.push b)
  else
    .mk "" .none .undef .andCombine false (.cons a (.cons b .nil))

/-- Embeds `QDjangoWhere::operator||`.  Like `&&`, the flatten branch
tests only `d->combine == OrCombine`, never `d->negate`. -/
def wor (a b : Where) : Where :=
  if a.isAll || b.isNone then a
  else if a.isNone || b.isAll then b
  else if a.combine == .orCombine then
    match a with
    | .mk k op v comb neg ch => .mk k op v comb neg (ch.push b)
  else
    .mk "" .none .undef .orCombine false (.cons a (.cons b .nil))

/-- Replaces every occurrence of the character `c` in a character list by
the replacement list `r` (the single-character case of `QString::replace`,
which scans left to right replacing every occurrence). -/
def replaceChar (c : Char) (r : List Char) : List Char → List Char
  | [] => []
  | a :: rest => if a = c then r ++ replaceChar c r rest else a :: replaceChar c r rest

/-- Embeds the static helper `escapeLike`: replace `%` by `\%`, then `_`
by `\_` (two successive `QString::replace` calls on single characters). -/
def escapeLike (data : String) : String :=
  ⟨replaceChar '_' ['\\', '_'] (replaceChar '%' ['\\', '%'] data.data)⟩

mutual
/-- Embeds `QDjangoWhere::bindValues`: the ordered sequence of values the
method adds to the query via `addBindValue`. -/
def bindValues (w : Where) : List Variant :=
  match w with
  | .mk _ op v _ _ ch =>
    if op == .isIn then v.toList
    else if op == .isNull then []
    else if op == .startsWith || op == .iStartsWith then
      [.str (escapeLike v.toString ++ "%")]
    else if op == .endsWith || op == .iEndsWith then
      [.str ("%" ++ escapeLike v.toString)]
    else if op == .contains || op == .iContains then
      [.str ("%" ++ escapeLike v.toString ++ "%")]
    else if op != .none then [v]
    else bindList ch

/-- The `foreach` loop of `bindValues` over the children list. -/
def bindList : WhereList → List Variant
  | .nil => []
  | .cons c rest => bindValues c ++ bindList rest
end

/-- Embeds `QStringList::join` with a separator string. -/
def joinList (sep : String) : List String → String
  | [] => ""
  | [x] => x
  | x :: xs => x ++ sep ++ joinList sep xs

/-- The `IN (...)` placeholder list: one "?" per element of the value
list, as built by the loop in the `IsIn` branch of `sql`. -/
def inBits (n : Nat) : List String := List.replicate n "?"

/-- The `StartsWith`/`EndsWith`/`Contains` branch of `sql` (case-sensitive
LIKE): `LIKE BINARY` on MySQL, an `ESCAPE` clause on SQLite. -/
def likeSql (key : String) (neg : Bool) (db : DatabaseType) : String :=
  let op :=
    if db == .mySqlServer then (if neg then "NOT LIKE BINARY" else "LIKE BINARY")
    else (if neg then "NOT LIKE" else "LIKE")
  if db == .sqlite then key ++ " " ++ op ++ " ? ESCAPE '\\'"
  else key ++ " " ++ op ++ " ?"

/-- The case-insensitive branch of `sql` (`IStartsWith`/`IEndsWith`/
`IContains`/`IEquals`/`INotEquals`): an `ESCAPE` clause on SQLite, an
`UPPER` wrapping of both sides on PostgreSQL, plain LIKE elsewhere. -/
def ilikeSql (key : String) (op : String) (db : DatabaseType) : String :=
  if db == .sqlite then key ++ " " ++ op ++ " ? ESCAPE '\\'"
  else if db == .postgreSQL then "UPPER(" ++ key ++ "::text) " ++ op ++ " UPPER(?)"
  else key ++ " " ++ op ++ " ?"


mutual
/-- Embeds `QDjangoWhere::sql`: the SQL text for the given database type. -/
def sql (w : Where) (db : DatabaseType) : String :=
  match w with
  | .mk key op v comb neg ch =>
    match op with
    | .equals => key ++ " = ?"
    | .notEquals => key ++ " != ?"
    | .greaterThan => key ++ " > ?"
    | .lessThan => key ++ " < ?"
    | .greaterOrEquals => key ++ " >= ?"
    | .lessOrEquals => key ++ " <= ?"
    | .isIn =>
      if neg then key ++ " NOT IN (" ++ joinList ", " (inBits v.toList.length) ++ ")"
      else key ++ " IN (" ++ joinList ", " (inBits v.toList.length) ++ ")"
    | .isNull => key ++ (if v.toBool then " IS NULL" else " IS NOT NULL")
    | .startsWith => likeSql key neg db
    | .endsWith => likeSql key neg db
    | .contains => likeSql key neg db
    | .iStartsWith => ilikeSql key (if neg then "NOT LIKE" else "LIKE") db
    | .iEndsWith => ilikeSql key (if neg then "NOT LIKE" else "LIKE") db
    | .iContains => ilikeSql key (if neg then "NOT LIKE" else "LIKE") db
    | .iEquals => ilikeSql key (if neg then "NOT LIKE" else "LIKE") db
    | .iNotEquals => ilikeSql key (if neg then "LIKE" else "NOT LIKE") db
    | .none =>
      if comb == .noCombine then
        if neg then "1 != 0" else ""
      else
        let combined :=
          if comb == .andCombine then joinList " AND " (sqlChildren ch db)
          else if comb == .orCombine then joinList " OR " (sqlChildren ch db)
          else ""
        if neg then "NOT (" ++ combined ++ ")" else combined

/-- The child-rendering loop of the combine branch of `sql`: each child's
text, wrapped in parentheses when that child itself has children. -/
def sqlChildren (l : WhereList) (db : DatabaseType) : List String :=
  match l with
  | .nil => []
  | .cons c rest =>
    (if c.children.isEmpty then sql c db else "(" ++ sql c db ++ ")") :: sqlChildren rest db
end

/-- Number of `?` placeholders in a piece of SQL text. -/
def countQ (s : String) : Nat := s.data.count '?'

/-- A token of rendered SQL: either literal text or a placeholder hole
carrying the value that `bindValues` supplies for it.  This instruments
the renderer so that the positional correspondence between placeholders
and bound values can be stated. -/
inductive Tok where
  | text (s : String)
  | hole (v : Variant)

/-- The text a token contributes to the SQL string: a hole prints as "?". -/
def Tok.str : Tok → String
  | .text s => s
  | .hole _ => "?"

/-- The value a token contributes to the bound-value list. -/
def Tok.val : Tok → Option Variant
  | .text _ => Option.none
  | .hole v => some v

/-- Concatenation of the text of a token list. -/
def toksStr : List Tok → String
  | [] => ""
  | t :: ts => t.str ++ toksStr ts

/-- The bound values of a token list, in order. -/
def toksVals (ts : List Tok) : List Variant := ts.filterMap Tok.val

/-- True when every literal-text token is free of `?`. -/
def toksTextNoQ : List Tok → Bool
  | [] => true
  | .text s :: ts => (countQ s == 0) && toksTextNoQ ts
  | .hole _ :: ts => toksTextNoQ ts

/-- One hole per value, separated by the literal ", " (the inside of an
`IN (...)` clause). -/
def holesSep : List Variant → List Tok
  | [] => []
  | [v] => [.hole v]
  | v :: vs => .hole v :: .text ", " :: holesSep vs

/-- Joins token lists with a literal separator, like `joinList` on text. -/
def joinToks (sep : String) : List (List Tok) → List Tok
  | [] => []
  | [x] => x
  | x :: xs => x ++ .text sep :: joinToks sep xs

/-- Token form of `likeSql`, with the hole carrying the given bound value. -/
def likeToks (key : String) (neg : Bool) (db : DatabaseType) (bound : Variant) : List Tok :=
  let op :=
    if db == .mySqlServer then (if neg then "NOT LIKE BINARY" else "LIKE BINARY")
    else (if neg then "NOT LIKE" else "LIKE")
  if db == .sqlite then [.text (key ++ " " ++ op ++ " "), .hole bound, .text " ESCAPE '\\'"]
  else [.text (key ++ " " ++ op ++ " "), .hole bound]

/-- Token form of `ilikeSql`, with the hole carrying the given bound value. -/
def ilikeToks (key : String) (op : String) (db : DatabaseType) (bound : Variant) : List Tok :=
  if db == .sqlite then [.text (key ++ " " ++ op ++ " "), .hole bound, .text " ESCAPE '\\'"]
  else if db == .postgreSQL then
    [.text ("UPPER(" ++ key ++ "::text) " ++ op ++ " UPPER("), .hole bound, .text ")"]
  else [.text (key ++ " " ++ op ++ " "), .hole bound]

mutual
/-- Token-level rendering: `sql` and `bindValues` fused into one traversal.
Its text projection is proved equal to `sql` and its value projection equal
to `bindValues`, which exhibits the positional placeholder/value pairing. -/
def sqlToks (w : Where) (db : DatabaseType) : List Tok :=
  match w with
  | .mk key op v comb neg ch =>
    match op with
    | .equals => [.text (key ++ " = "), .hole v]
    | .notEquals => [.text (key ++ " != "), .hole v]
    | .greaterThan => [.text (key ++ " > "), .hole v]
    | .lessThan => [.text (key ++ " < "), .hole v]
    | .greaterOrEquals => [.text (key ++ " >= "), .hole v]
    | .lessOrEquals => [.text (key ++ " <= "), .hole v]
    | .isIn =>
      if neg then .text (key ++ " NOT IN (") :: (holesSep v.toList ++ [.text ")"])
      else .text (key ++ " IN (") :: (holesSep v.toList ++ [.text ")"])
    | .isNull => [.text (key ++ (if v.toBool then " IS NULL" else " IS NOT NULL"))]
    | .startsWith => likeToks key neg db (.str (escapeLike v.toString ++ "%"))
    | .endsWith => likeToks key neg db (.str ("%" ++ escapeLike v.toString))
    | .contains => likeToks key neg db (.str ("%" ++ escapeLike v.toString ++ "%"))
    | .iStartsWith =>
      ilikeToks key (if neg then "NOT LIKE" else "LIKE") db (.str (escapeLike v.toString ++ "%"))
    | .iEndsWith =>
      ilikeToks key (if neg then "NOT LIKE" else "LIKE") db (.str ("%" ++ escapeLike v.toString))
    | .iContains =>
      ilikeToks key (if neg then "NOT LIKE" else "LIKE") db (.str ("%" ++ escapeLike v.toString ++ "%"))
    | .iEquals => ilikeToks key (if neg then "NOT LIKE" else "LIKE") db v
    | .iNotEquals => ilikeToks key (if neg then "LIKE" else "NOT LIKE") db v
    | .none =>
      if comb == .noCombine then
        [.text (if neg then "1 != 0" else "")]
      else
        let joined :=
          if comb == .andCombine then joinToks " AND " (childToksList ch db)
          else if comb == .orCombine then joinToks " OR " (childToksList ch db)
          else []
        if neg then .text "NOT (" :: (joined ++ [.text ")"]) else joined

/-- Token-level child rendering, mirroring `sqlChildren`. -/
def childToksList (l : WhereList) (db : DatabaseType) : List (List Tok) :=
  match l with
  | .nil => []
  | .cons c rest =>
    (if c.children.isEmpty then sqlToks c db
     else .text "(" :: (sqlToks c db ++ [.text ")"])) :: childToksList rest db
end

mutual
/-- Structural invariant of publicly built trees: a node whose operation is
`None` and whose combine tag is `NoCombine` (a sentinel leaf) has no
children.  This is the one shape on which `sql` (which would render the
sentinel) and `bindValues` (which would walk the children) disagree, and
the public constructors never produce it. -/
def noGhostB (w : Where) : Bool :=
  match w with
  | .mk _ op _ comb _ ch =>
    (!(op == .none && comb == .noCombine) || ch.isEmpty) && noGhostListB ch

/-- The invariant `noGhostB`, over a children list. -/
def noGhostListB : WhereList → Bool
  | .nil => true
  | .cons c rest => noGhostB c && noGhostListB rest
end

mutual
/-- Every node's key is free of the `?` character. -/
def keysNoQ (w : Where) : Bool :=
  match w with
  | .mk k _ _ _ _ ch => countQ k == 0 && keysNoQList ch

/-- The invariant `keysNoQ`, over a children list. -/
def keysNoQList : WhereList → Bool
  | .nil => true
  | .cons c rest => keysNoQ c && keysNoQList rest
end

mutual
/-- Every combine node (combine tag distinct from `NoCombine`) has at
least two operands. -/
def minTwoB (w : Where) : Bool :=
  match w with
  | .mk _ _ _ comb _ ch =>
    (comb == .noCombine || decide (2 ≤ ch.length)) && minTwoListB ch

/-- The invariant `minTwoB`, over a children list. -/
def minTwoListB : WhereList → Bool
  | .nil => true
  | .cons c rest => minTwoB c && minTwoListB rest
end

/-- The trees reachable through the public API: the constructors
`QDjangoWhere()` / `QDjangoWhere(key, operation, value)`, negation, and
the `&&` / `||` combinators. -/
inductive Built : Where → Prop where
  | leaf : ∀ (k : String) (op : Operation) (v : Variant), Built (Where.leaf k op v)
  | neg : ∀ {w : Where}, Built w → Built (wnot w)
  | and : ∀ {a b : Where}, Built a → Built b → Built (wand a b)
  | or : ∀ {a b : Where}, Built a → Built b → Built (wor a b)

/-! Supporting lemmas about text pieces and token lists. -/

theorem countQ_append (a b : String) : countQ (a ++ b) = countQ a + countQ b := by
  simp [countQ, String.data_append, List.count_append]

theorem toksStr_append (a b : List Tok) : toksStr (a ++ b) = toksStr a ++ toksStr b := by
  induction a with
  | nil => rfl
  | cons t ts ih =>
    simp only [List.cons_append, toksStr, List.append_eq, ih, String.append_assoc]

theorem toksVals_append (a b : List Tok) : toksVals (a ++ b) = toksVals a ++ toksVals b := by
  simp [toksVals, List.filterMap_append]

theorem toksVals_text (s : String) (ts : List Tok) :
    toksVals (.text s :: ts) = toksVals ts := by
  simp [toksVals, List.filterMap_cons, Tok.val]

theorem toksVals_hole (v : Variant) (ts : List Tok) :
    toksVals (.hole v :: ts) = v :: toksVals ts := by
  simp [toksVals, List.filterMap_cons, Tok.val]

theorem toksTextNoQ_append (a b : List Tok) :
    toksTextNoQ (a ++ b) = (toksTextNoQ a && toksTextNoQ b) := by
  induction a with
  | nil => rfl
  | cons t ts ih =>
    cases t <;> simp [toksTextNoQ, ih, Bool.and_assoc]

theorem countQ_toksStr (ts : List Tok) (h : toksTextNoQ ts = true) :
    countQ (toksStr ts) = (toksVals ts).length := by
  induction ts with
  | nil => rfl
  | cons t ts ih =>
    cases t with
    | text s =>
      simp only [toksTextNoQ, Bool.and_eq_true, beq_iff_eq] at h
      simp only [toksStr, Tok.str, countQ_append, h.1, ih h.2, toksVals_text, Nat.zero_add]
    | hole v =>
      simp only [toksTextNoQ] at h
      simp only [toksStr, Tok.str, countQ_append, ih h, toksVals_hole, List.length_cons]
      have : countQ "?" = 1 := rfl
      omega

theorem toksStr_holesSep (vs : List Variant) :
    toksStr (holesSep vs) = joinList ", " (inBits vs.length) := by
  induction vs with
  | nil => rfl
  | cons v rest ih =>
    cases rest with
    | nil => rfl
    | cons w t =>
      simp only [holesSep, toksStr, Tok.str, ih]
      simp only [inBits, List.length_cons, List.replicate, joinList, String.append_assoc]

theorem toksVals_holesSep (vs : List Variant) : toksVals (holesSep vs) = vs := by
  induction vs with
  | nil => rfl
  | cons v rest ih =>
    cases rest with
    | nil => rfl
    | cons w t => simp only [holesSep, toksVals_hole, toksVals_text, ih]

theorem toksTextNoQ_holesSep (vs : List Variant) : toksTextNoQ (holesSep vs) = true := by
  induction vs with
  | nil => rfl
  | cons v rest ih =>
    cases rest with
    | nil => rfl
    | cons w t =>
      simp only [holesSep, toksTextNoQ, ih, Bool.and_true]
      decide

theorem toksStr_joinToks (sep : String) (ps : List (List Tok)) :
    toksStr (joinToks sep ps) = joinList sep (ps.map toksStr) := by
  induction ps with
  | nil => rfl
  | cons x xs ih =>
    cases xs with
    | nil => simp [joinToks, joinList]
    | cons y ys =>
      simp only [joinToks, List.map_cons, joinList, toksStr_append, toksStr, Tok.str,
        String.append_assoc]
      simp only [List.map_cons] at ih
      simp [ih, joinList]

theorem toksVals_joinToks (sep : String) (ps : List (List Tok)) :
    toksVals (joinToks sep ps) = (ps.map toksVals).flatten := by
  induction ps with
  | nil => rfl
  | cons x xs ih =>
    cases xs with
    | nil => simp [joinToks, toksVals]
    | cons y ys =>
      simp only [joinToks, toksVals_append, toksVals_text, ih, List.map_cons, List.flatten_cons]

theorem toksTextNoQ_joinToks (sep : String) (ps : List (List Tok))
    (hsep : countQ sep = 0) (h : ps.all toksTextNoQ = true) :
    toksTextNoQ (joinToks sep ps) = true := by
  induction ps with
  | nil => rfl
  | cons x xs ih =>
    cases xs with
    | nil => simpa [joinToks] using h
    | cons y ys =>
      simp only [List.all_cons, Bool.and_eq_true] at h
      simp only [joinToks, toksTextNoQ_append, toksTextNoQ, hsep, Bool.and_eq_true]
      refine ⟨h.1, by simp, ?_⟩
      exact ih (by simp [List.all_cons, h.2.1, h.2.2])

theorem toksStr_likeToks (key : String) (neg : Bool) (db : DatabaseType) (bound : Variant) :
    toksStr (likeToks key neg db bound) = likeSql key neg db := by
  cases db <;> cases neg <;>
    simp [likeToks, likeSql, toksStr, Tok.str, String.append_assoc, String.append_empty]

theorem toksVals_likeToks (key : String) (neg : Bool) (db : DatabaseType) (bound : Variant) :
    toksVals (likeToks key neg db bound) = [bound] := by
  cases db <;> cases neg <;> simp [likeToks, toksVals, List.filterMap_cons, Tok.val]

theorem toksTextNoQ_likeToks (key : String) (neg : Bool) (db : DatabaseType) (bound : Variant)
    (h : countQ key = 0) : toksTextNoQ (likeToks key neg db bound) = true := by
  cases db <;> cases neg <;> simp [likeToks, toksTextNoQ, countQ_append, h] <;> decide

theorem toksStr_ilikeToks (key : String) (op : String) (db : DatabaseType) (bound : Variant) :
    toksStr (ilikeToks key op db bound) = ilikeSql key op db := by
  cases db <;>
    simp [ilikeToks, ilikeSql, toksStr, Tok.str, String.append_assoc, String.append_empty]

theorem toksVals_ilikeToks (key : String) (op : String) (db : DatabaseType) (bound : Variant) :
    toksVals (ilikeToks key op db bound) = [bound] := by
  cases db <;> simp [ilikeToks, toksVals, List.filterMap_cons, Tok.val]

theorem toksTextNoQ_ilikeToks (key : String) (op : String) (db : DatabaseType) (bound : Variant)
    (hk : countQ key = 0) (hop : countQ op = 0) :
    toksTextNoQ (ilikeToks key op db bound) = true := by
  cases db <;> simp [ilikeToks, toksTextNoQ, countQ_append, hk, hop] <;> decide

/-! The three projections of the fused token rendering: its text is `sql`,
its values are `bindValues`, and (for `?`-free keys) its literal pieces
are `?`-free.  Together these exhibit the positional placeholder/value
correspondence of the renderer and binder. -/

mutual
theorem toksStr_sqlToks : ∀ (w : Where) (db : DatabaseType),
    toksStr (sqlToks w db) = sql w db
  | .mk key op v comb neg ch, db => by
    cases op <;>
      simp only [sqlToks, sql, toksStr_likeToks, toksStr_ilikeToks]
    case none =>
      have hlist := toksStr_childToksList ch db
      cases comb <;> cases neg <;>
        simp [toksStr_append, toksStr, Tok.str, toksStr_joinToks, hlist,
          String.append_assoc, String.append_empty]
    case equals =>
      simp [toksStr, Tok.str, String.append_assoc, String.append_empty]
    case notEquals =>
      simp [toksStr, Tok.str, String.append_assoc, String.append_empty]
    case greaterThan =>
      simp [toksStr, Tok.str, String.append_assoc, String.append_empty]
    case lessThan =>
      simp [toksStr, Tok.str, String.append_assoc, String.append_empty]
    case greaterOrEquals =>
      simp [toksStr, Tok.str, String.append_assoc, String.append_empty]
    case lessOrEquals =>
      simp [toksStr, Tok.str, String.append_assoc, String.append_empty]
    case isIn =>
      cases neg <;>
        simp [toksStr, Tok.str, toksStr_append, toksStr_holesSep,
          String.append_assoc, String.append_empty]
    case isNull =>
      simp [toksStr, Tok.str, String.append_empty]

theorem toksStr_childToksList : ∀ (l : WhereList) (db : DatabaseType),
    (childToksList l db).map toksStr = sqlChildren l db
  | .nil, _ => rfl
  | .cons c rest, db => by
    have hc := toksStr_sqlToks c db
    have hrest := toksStr_childToksList rest db
    cases he : c.children.isEmpty <;>
      simp [childToksList, sqlChildren, he, hc, hrest, toksStr_append, toksStr, Tok.str,
        String.append_assoc, String.append_empty]
end

theorem WhereList.eq_nil_of_isEmpty : ∀ {l : WhereList}, l.isEmpty = true → l = .nil
  | .nil, _ => rfl

theorem toksVals_nil : toksVals [] = [] := rfl

mutual
theorem toksVals_sqlToks : ∀ (w : Where) (db : DatabaseType),
    noGhostB w = true → toksVals (sqlToks w db) = bindValues w
  | .mk key op v comb neg ch, db => by
    intro h
    simp only [noGhostB, Bool.and_eq_true] at h
    cases op
    case equals => rfl
    case notEquals => rfl
    case greaterThan => rfl
    case lessThan => rfl
    case greaterOrEquals => rfl
    case lessOrEquals => rfl
    case isNull => rfl
    case startsWith =>
      simp only [sqlToks, toksVals_likeToks]; rfl
    case endsWith =>
      simp only [sqlToks, toksVals_likeToks]; rfl
    case contains =>
      simp only [sqlToks, toksVals_likeToks]; rfl
    case iStartsWith =>
      simp only [sqlToks, toksVals_ilikeToks]; rfl
    case iEndsWith =>
      simp only [sqlToks, toksVals_ilikeToks]; rfl
    case iContains =>
      simp only [sqlToks, toksVals_ilikeToks]; rfl
    case iEquals =>
      simp only [sqlToks, toksVals_ilikeToks]; rfl
    case iNotEquals =>
      simp only [sqlToks, toksVals_ilikeToks]; rfl
    case isIn =>
      cases neg <;>
        simp only [sqlToks, Bool.false_eq_true, if_false, if_true, toksVals_text,
          toksVals_append, toksVals_holesSep, toksVals_nil, List.append_nil] <;>
        rfl
    case none =>
      cases comb
      case noCombine =>
        have hch : ch = .nil := by
          apply WhereList.eq_nil_of_isEmpty
          simpa using h.1
        subst hch
        cases neg <;> rfl
      case andCombine =>
        have hlist := toksVals_childToksList ch db h.2
        cases neg <;>
          simp [sqlToks, toksVals_append, toksVals_text, toksVals_nil, toksVals_joinToks,
            hlist, List.append_nil] <;>
          rfl
      case orCombine =>
        have hlist := toksVals_childToksList ch db h.2
        cases neg <;>
          simp [sqlToks, toksVals_append, toksVals_text, toksVals_nil, toksVals_joinToks,
            hlist, List.append_nil] <;>
          rfl

theorem toksVals_childToksList : ∀ (l : WhereList) (db : DatabaseType),
    noGhostListB l = true → ((childToksList l db).map toksVals).flatten = bindList l
  | .nil, _, _ => rfl
  | .cons c rest, db, h => by
    simp only [noGhostListB, Bool.and_eq_true] at h
    have hc := toksVals_sqlToks c db h.1
    have hrest := toksVals_childToksList rest db h.2
    cases he : c.children.isEmpty <;>
      simp [childToksList, bindList, he, hc, hrest, toksVals_append, toksVals_text,
        toksVals_nil]
end

mutual
theorem toksTextNoQ_sqlToks : ∀ (w : Where) (db : DatabaseType),
    keysNoQ w = true → toksTextNoQ (sqlToks w db) = true
  | .mk key op v comb neg ch, db => by
    intro h
    simp only [keysNoQ, Bool.and_eq_true, beq_iff_eq] at h
    obtain ⟨hk, hch⟩ := h
    cases op
    case startsWith =>
      simp only [sqlToks]; exact toksTextNoQ_likeToks _ _ _ _ hk
    case endsWith =>
      simp only [sqlToks]; exact toksTextNoQ_likeToks _ _ _ _ hk
    case contains =>
      simp only [sqlToks]; exact toksTextNoQ_likeToks _ _ _ _ hk
    case iStartsWith =>
      cases neg <;> simp only [sqlToks, Bool.false_eq_true, if_false, if_true] <;>
        exact toksTextNoQ_ilikeToks _ _ _ _ hk (by decide)
    case iEndsWith =>
      cases neg <;> simp only [sqlToks, Bool.false_eq_true, if_false, if_true] <;>
        exact toksTextNoQ_ilikeToks _ _ _ _ hk (by decide)
    case iContains =>
      cases neg <;> simp only [sqlToks, Bool.false_eq_true, if_false, if_true] <;>
        exact toksTextNoQ_ilikeToks _ _ _ _ hk (by decide)
    case iEquals =>
      cases neg <;> simp only [sqlToks, Bool.false_eq_true, if_false, if_true] <;>
        exact toksTextNoQ_ilikeToks _ _ _ _ hk (by decide)
    case iNotEquals =>
      cases neg <;> simp only [sqlToks, Bool.false_eq_true, if_false, if_true] <;>
        exact toksTextNoQ_ilikeToks _ _ _ _ hk (by decide)
    case equals => simp [sqlToks, toksTextNoQ, countQ_append, hk]; decide
    case notEquals => simp [sqlToks, toksTextNoQ, countQ_append, hk]; decide
    case greaterThan => simp [sqlToks, toksTextNoQ, countQ_append, hk]; decide
    case lessThan => simp [sqlToks, toksTextNoQ, countQ_append, hk]; decide
    case greaterOrEquals => simp [sqlToks, toksTextNoQ, countQ_append, hk]; decide
    case lessOrEquals => simp [sqlToks, toksTextNoQ, countQ_append, hk]; decide
    case isNull =>
      cases hb : v.toBool <;> simp [sqlToks, toksTextNoQ, countQ_append, hk, hb] <;> decide
    case isIn =>
      cases neg <;>
        simp [sqlToks, toksTextNoQ_append, toksTextNoQ, toksTextNoQ_holesSep,
          countQ_append, hk] <;>
        decide
    case none =>
      have hlist := toksTextNoQ_childToksList ch db hch
      have hjA := toksTextNoQ_joinToks " AND " (childToksList ch db) (by decide) hlist
      have hjO := toksTextNoQ_joinToks " OR " (childToksList ch db) (by decide) hlist
      cases comb <;> cases neg <;>
        simp [sqlToks, toksTextNoQ_append, toksTextNoQ, hjA, hjO] <;>
        decide

theorem toksTextNoQ_childToksList : ∀ (l : WhereList) (db : DatabaseType),
    keysNoQList l = true → (childToksList l db).all toksTextNoQ = true
  | .nil, _, _ => rfl
  | .cons c rest, db, h => by
    simp only [keysNoQList, Bool.and_eq_true] at h
    have hc := toksTextNoQ_sqlToks c db h.1
    have hrest := toksTextNoQ_childToksList rest db h.2
    cases he : c.children.isEmpty
    · simp [childToksList, he, hc, hrest, toksTextNoQ_append, toksTextNoQ]
      decide
    · simp [childToksList, he, hc, hrest, toksTextNoQ_append, toksTextNoQ]

end

/-! Propagation of the structural invariants along the public API. -/

theorem WhereList.length_push : ∀ (l : WhereList) (w : Where),
    (l.push w).length = l.length + 1
  | .nil, _ => rfl
  | .cons c rest, w => by
    simp [WhereList.push, WhereList.length, WhereList.length_push rest w]
    omega

theorem noGhostListB_push : ∀ (l : WhereList) (w : Where),
    noGhostListB (l.push w) = (noGhostListB l && noGhostB w)
  | .nil, _ => by simp [WhereList.push, noGhostListB]
  | .cons c rest, w => by
    simp [WhereList.push, noGhostListB, noGhostListB_push rest w, Bool.and_assoc]

theorem minTwoListB_push : ∀ (l : WhereList) (w : Where),
    minTwoListB (l.push w) = (minTwoListB l && minTwoB w)
  | .nil, _ => by simp [WhereList.push, minTwoListB]
  | .cons c rest, w => by
    simp [WhereList.push, minTwoListB, minTwoListB_push rest w, Bool.and_assoc]

theorem noGhostB_mk (k : String) (op : Operation) (v : Variant) (comb : CombineType)
    (neg : Bool) (ch : WhereList) :
    noGhostB (.mk k op v comb neg ch) =
      ((!(op == .none && comb == .noCombine) || ch.isEmpty) && noGhostListB ch) := rfl

theorem noGhostListB_cons (c : Where) (rest : WhereList) :
    noGhostListB (.cons c rest) = (noGhostB c && noGhostListB rest) := rfl

theorem minTwoB_mk (k : String) (op : Operation) (v : Variant) (comb : CombineType)
    (neg : Bool) (ch : WhereList) :
    minTwoB (.mk k op v comb neg ch) =
      ((comb == .noCombine || decide (2 ≤ ch.length)) && minTwoListB ch) := rfl

theorem minTwoListB_cons (c : Where) (rest : WhereList) :
    minTwoListB (.cons c rest) = (minTwoB c && minTwoListB rest) := rfl

theorem noGhostB_wnot (w : Where) : noGhostB (wnot w) = noGhostB w := by
  cases w with
  | mk k op v comb neg ch =>
    cases ch with
    | nil => cases op <;> simp [wnot, WhereList.isEmpty, noGhostB]
    | cons c rest => simp [wnot, WhereList.isEmpty, noGhostB]

theorem minTwoB_wnot (w : Where) : minTwoB (wnot w) = minTwoB w := by
  cases w with
  | mk k op v comb neg ch =>
    cases ch with
    | nil => cases op <;> simp [wnot, WhereList.isEmpty, minTwoB]
    | cons c rest => simp [wnot, WhereList.isEmpty, minTwoB]

theorem built_noGhost {w : Where} (h : Built w) : noGhostB w = true := by
  induction h with
  | leaf k op v => simp [Where.leaf, noGhostB, noGhostListB, WhereList.isEmpty]
  | neg _ ih => rwa [noGhostB_wnot]
  | @and a b _ _ iha ihb =>
    cases a with
    | mk k op v comb neg ch =>
      simp only [wand]
      split
      · exact ihb
      · split
        · exact iha
        · split
          · next hcomb =>
            have hcomb2 : comb = CombineType.andCombine := by
              simpa [Where.combine] using hcomb
            subst hcomb2
            simp only [noGhostB, Bool.and_eq_true] at iha ⊢
            exact ⟨by simp, by rw [noGhostListB_push]; simp [iha.2, ihb]⟩
          · rw [noGhostB_mk, noGhostListB_cons, noGhostListB_cons]
            simp [iha, ihb, noGhostListB]
  | @or a b _ _ iha ihb =>
    cases a with
    | mk k op v comb neg ch =>
      simp only [wor]
      split
      · exact iha
      · split
        · exact ihb
        · split
          · next hcomb =>
            have hcomb2 : comb = CombineType.orCombine := by
              simpa [Where.combine] using hcomb
            subst hcomb2
            simp only [noGhostB, Bool.and_eq_true] at iha ⊢
            exact ⟨by simp, by rw [noGhostListB_push]; simp [iha.2, ihb]⟩
          · rw [noGhostB_mk, noGhostListB_cons, noGhostListB_cons]
            simp [iha, ihb, noGhostListB]

theorem built_minTwo {w : Where} (h : Built w) : minTwoB w = true := by
  induction h with
  | leaf k op v => simp [Where.leaf, minTwoB, minTwoListB, WhereList.length]
  | neg _ ih => rwa [minTwoB_wnot]
  | @and a b _ _ iha ihb =>
    cases a with
    | mk k op v comb neg ch =>
      simp only [wand]
      split
      · exact ihb
      · split
        · exact iha
        · split
          · next hcomb =>
            have hcomb2 : comb = CombineType.andCombine := by
              simpa [Where.combine] using hcomb
            subst hcomb2
            simp only [minTwoB, Bool.and_eq_true, Bool.or_eq_true, decide_eq_true_eq] at iha ⊢
            constructor
            · right
              rw [WhereList.length_push]
              rcases iha.1 with h1 | h1
              · exact absurd h1 (by simp)
              · omega
            · rw [minTwoListB_push]; simp [iha.2, ihb]
          · rw [minTwoB_mk, minTwoListB_cons, minTwoListB_cons]
            simp [iha, ihb, minTwoListB, WhereList.length]
  | @or a b _ _ iha ihb =>
    cases a with
    | mk k op v comb neg ch =>
      simp only [wor]
      split
      · exact iha
      · split
        · exact ihb
        · split
          · next hcomb =>
            have hcomb2 : comb = CombineType.orCombine := by
              simpa [Where.combine] using hcomb
            subst hcomb2
            simp only [minTwoB, Bool.and_eq_true, Bool.or_eq_true, decide_eq_true_eq] at iha ⊢
            constructor
            · right
              rw [WhereList.length_push]
              rcases iha.1 with h1 | h1
              · exact absurd h1 (by simp)
              · omega
            · rw [minTwoListB_push]; simp [iha.2, ihb]
          · rw [minTwoB_mk, minTwoListB_cons, minTwoListB_cons]
            simp [iha, ihb, minTwoListB, WhereList.length]

/-- Rendering and binding of any well-formed tree satisfying `isNone`: the
None-constraint renders as "1 != 0" and binds nothing. -/
theorem isNone_render {p : Where} (db : DatabaseType) (h : p.isNone = true)
    (hg : noGhostB p = true) : sql p db = "1 != 0" ∧ bindValues p = [] := by
  cases p with
  | mk k op v comb neg ch =>
    simp only [Where.isNone, Where.combine, Where.operation, Where.negate,
      Bool.and_eq_true, beq_iff_eq] at h
    obtain ⟨⟨hc, ho⟩, hn⟩ := h
    subst hc; subst ho; subst hn
    have hch : ch = .nil := by
      apply WhereList.eq_nil_of_isEmpty
      rw [noGhostB_mk, Bool.and_eq_true] at hg
      simpa using hg.1
    subst hch
    exact ⟨rfl, rfl⟩

/-! The claims. -/

/-- C1: for every predicate tree built through the public constructors,
negation and the `&&`/`||` combinators, with every key free of `?`, and for
every dialect, the number of `?` placeholders in the text of `sql` equals
the number of values appended by `bindValues`; moreover both are
projections of the single fused token sequence `sqlToks`, whose i-th hole
renders as the i-th placeholder and carries the i-th bound value, so the
values appear in the same left-to-right order as their placeholders. -/
theorem c1_placeholder_value_alignment (w : Where) (db : DatabaseType)
    (hb : Built w) (hq : keysNoQ w = true) :
    countQ (sql w db) = (bindValues w).length ∧
    sql w db = toksStr (sqlToks w db) ∧
    bindValues w = toksVals (sqlToks w db) := by
  have h1 := toksStr_sqlToks w db
  have h2 := toksVals_sqlToks w db (built_noGhost hb)
  have h3 := toksTextNoQ_sqlToks w db hq
  refine ⟨?_, h1.symm, h2.symm⟩
  rw [← h1, ← h2]
  exact countQ_toksStr _ h3

/-- Witness for C1: a concrete tree (an AND of an equality and a
three-element IN) on the SQLite dialect. -/
theorem c1_placeholder_value_alignment_witness :
    (Built (wand (Where.leaf "a" .equals (.int 1))
        (Where.leaf "b" .isIn (.list [.int 2, .int 3]))) ∧
      keysNoQ (wand (Where.leaf "a" .equals (.int 1))
        (Where.leaf "b" .isIn (.list [.int 2, .int 3]))) = true) ∧
    countQ (sql (wand (Where.leaf "a" .equals (.int 1))
        (Where.leaf "b" .isIn (.list [.int 2, .int 3]))) .sqlite)
      = (bindValues (wand (Where.leaf "a" .equals (.int 1))
          (Where.leaf "b" .isIn (.list [.int 2, .int 3])))).length ∧
    sql (wand (Where.leaf "a" .equals (.int 1))
        (Where.leaf "b" .isIn (.list [.int 2, .int 3]))) .sqlite
      = toksStr (sqlToks (wand (Where.leaf "a" .equals (.int 1))
          (Where.leaf "b" .isIn (.list [.int 2, .int 3]))) .sqlite) ∧
    bindValues (wand (Where.leaf "a" .equals (.int 1))
        (Where.leaf "b" .isIn (.list [.int 2, .int 3])))
      = toksVals (sqlToks (wand (Where.leaf "a" .equals (.int 1))
          (Where.leaf "b" .isIn (.list [.int 2, .int 3]))) .sqlite) :=
  ⟨⟨Built.and (Built.leaf _ _ _) (Built.leaf _ _ _), by decide⟩,
    c1_placeholder_value_alignment _ .sqlite
      (Built.and (Built.leaf _ _ _) (Built.leaf _ _ _)) (by decide)⟩

/-- C2: the un-negated None sentinel (default-constructed clause, All)
renders to the empty string on every dialect, as the claim states; but the
negated sentinel (the None-constraint, the node satisfying `isNone`)
renders to the literal "1 != 0" on every dialect — a condition that is
true on every row (since 1 does differ from 0), not the tautologically
false condition the claim requires. -/
theorem c2_none_sentinel_render (db : DatabaseType) :
    sql Where.empty db = "" ∧
    Where.isNone (wnot Where.empty) = true ∧
    sql (wnot Where.empty) db = "1 != 0" ∧
    (1 : Int) ≠ 0 :=
  ⟨rfl, rfl, rfl, by decide⟩

/-- C3: evaluation of the flatten branch on a negated combine.  Combining
`!(k1 = 1 && k2 = 2)` with `k3 = 3` by `&&` appends the new operand inside
the negated AND node (three children under the NOT), instead of building a
fresh two-operand combine, because `operator&&` tests only
`d->combine == AndCombine` and ignores `d->negate`; likewise for `||`. -/
theorem c3_flatten_ignores_negation :
    sql (wand (wnot (wand (Where.leaf "k1" .equals (.int 1))
          (Where.leaf "k2" .equals (.int 2)))) (Where.leaf "k3" .equals (.int 3))) .sqlite
      = "NOT (k1 = ? AND k2 = ? AND k3 = ?)" ∧
    (wand (wnot (wand (Where.leaf "k1" .equals (.int 1))
        (Where.leaf "k2" .equals (.int 2)))) (Where.leaf "k3" .equals (.int 3))).children.length
      = 3 ∧
    sql (wor (wnot (wor (Where.leaf "k1" .equals (.int 1))
          (Where.leaf "k2" .equals (.int 2)))) (Where.leaf "k3" .equals (.int 3))) .sqlite
      = "NOT (k1 = ? OR k2 = ? OR k3 = ?)" ∧
    (wor (wnot (wor (Where.leaf "k1" .equals (.int 1))
        (Where.leaf "k2" .equals (.int 2)))) (Where.leaf "k3" .equals (.int 3))).children.length
      = 3 :=
  ⟨rfl, rfl, rfl, rfl⟩

/-- C4: negation is an involution on leaves: for every key, operation,
value, negation flag and dialect, double negation renders identical SQL
text and binds the identical value sequence. -/
theorem c4_negation_involution_on_leaves (k : String) (op : Operation)
    (v : Variant) (neg : Bool) (db : DatabaseType) :
    sql (wnot (wnot (Where.mk k op v .noCombine neg .nil))) db
      = sql (Where.mk k op v .noCombine neg .nil) db ∧
    bindValues (wnot (wnot (Where.mk k op v .noCombine neg .nil)))
      = bindValues (Where.mk k op v .noCombine neg .nil) := by
  cases op <;> cases neg <;>
    first
      | exact ⟨rfl, rfl⟩
      | constructor <;>
          simp [wnot, sql, bindValues, WhereList.isEmpty, Variant.toBool, Bool.not_not]

/-- C5: All (the default-constructed clause) is the identity of `&&` and
the absorbing element of `||`, and the None-constraint (its negation) is
the absorbing element of `&&` and the identity of `||`, equality measured
as identical rendered text plus identical bound values, for every publicly
built predicate and every dialect. -/
theorem c5_identity_absorption (p : Where) (db : DatabaseType) (hp : Built p) :
    (sql (wand Where.empty p) db = sql p db ∧
      bindValues (wand Where.empty p) = bindValues p) ∧
    (sql (wand (wnot Where.empty) p) db = sql (wnot Where.empty) db ∧
      bindValues (wand (wnot Where.empty) p) = bindValues (wnot Where.empty)) ∧
    (sql (wor Where.empty p) db = sql Where.empty db ∧
      bindValues (wor Where.empty p) = bindValues Where.empty) ∧
    (sql (wor (wnot Where.empty) p) db = sql p db ∧
      bindValues (wor (wnot Where.empty) p) = bindValues p) := by
  have e1 : (wnot Where.empty).isAll = false := rfl
  have e2 : (wnot Where.empty).isNone = true := rfl
  refine ⟨⟨rfl, rfl⟩, ?_, ⟨rfl, rfl⟩, ?_⟩
  · cases hn : p.isNone
    · have hw : wand (wnot Where.empty) p = wnot Where.empty := by
        simp [wand, e1, e2, hn]
      rw [hw]
      exact ⟨rfl, rfl⟩
    · have hw : wand (wnot Where.empty) p = p := by
        simp [wand, e1, hn]
      have hr := isNone_render db hn (built_noGhost hp)
      rw [hw, hr.1, hr.2]
      exact ⟨rfl, rfl⟩
  · cases hn : p.isNone
    · have hw : wor (wnot Where.empty) p = p := by
        simp [wor, e1, e2, hn]
      rw [hw]
      exact ⟨rfl, rfl⟩
    · have hw : wor (wnot Where.empty) p = wnot Where.empty := by
        simp [wor, e1, hn]
      have hr := isNone_render db hn (built_noGhost hp)
      rw [hw, hr.1, hr.2]
      exact ⟨rfl, rfl⟩

/-- Witness for C5 at a concrete equality leaf on the MySQL dialect. -/
theorem c5_identity_absorption_witness :
    Built (Where.leaf "a" .equals (.int 1)) ∧
    ((sql (wand Where.empty (Where.leaf "a" .equals (.int 1))) .mySqlServer
        = sql (Where.leaf "a" .equals (.int 1)) .mySqlServer ∧
      bindValues (wand Where.empty (Where.leaf "a" .equals (.int 1)))
        = bindValues (Where.leaf "a" .equals (.int 1))) ∧
    (sql (wand (wnot Where.empty) (Where.leaf "a" .equals (.int 1))) .mySqlServer
        = sql (wnot Where.empty) .mySqlServer ∧
      bindValues (wand (wnot Where.empty) (Where.leaf "a" .equals (.int 1)))
        = bindValues (wnot Where.empty)) ∧
    (sql (wor Where.empty (Where.leaf "a" .equals (.int 1))) .mySqlServer
        = sql Where.empty .mySqlServer ∧
      bindValues (wor Where.empty (Where.leaf "a" .equals (.int 1)))
        = bindValues Where.empty) ∧
    (sql (wor (wnot Where.empty) (Where.leaf "a" .equals (.int 1))) .mySqlServer
        = sql (Where.leaf "a" .equals (.int 1)) .mySqlServer ∧
      bindValues (wor (wnot Where.empty) (Where.leaf "a" .equals (.int 1)))
        = bindValues (Where.leaf "a" .equals (.int 1)))) :=
  ⟨Built.leaf _ _ _,
    c5_identity_absorption (Where.leaf "a" .equals (.int 1)) .mySqlServer
      (Built.leaf _ _ _)⟩

/-- C6: wildcard escaping happens before wildcard wrapping: a Contains
leaf binds the single value `"%" ++ escapeLike v ++ "%"`, a StartsWith
leaf `escapeLike v ++ "%"`, an EndsWith leaf `"%" ++ escapeLike v`, where
`escapeLike` replaces every literal `%` by `\%` and every literal `_` by
`\_`; in particular a Contains leaf on "50%_off" binds exactly
the string rendered as %50\%\_off% . -/
theorem c6_escape_before_wrap (k : String) (v : String) :
    bindValues (Where.leaf k .contains (.str v))
      = [.str ("%" ++ escapeLike v ++ "%")] ∧
    bindValues (Where.leaf k .startsWith (.str v))
      = [.str (escapeLike v ++ "%")] ∧
    bindValues (Where.leaf k .endsWith (.str v))
      = [.str ("%" ++ escapeLike v)] ∧
    escapeLike v = ⟨replaceChar '_' ['\\', '_'] (replaceChar '%' ['\\', '%'] v.data)⟩ ∧
    bindValues (Where.leaf "price" .contains (.str "50%_off"))
      = [.str "%50\\%\\_off%"] :=
  ⟨rfl, rfl, rfl, rfl, rfl⟩

/-- C7: case-insensitive rendering of an IContains leaf diverges per
dialect exactly as specified: PostgreSQL wraps both the key and the
placeholder in UPPER, SQLite appends an ESCAPE clause and uses no UPPER,
and MySQL uses a plain LIKE with neither UPPER nor ESCAPE. -/
theorem c7_icontains_dialects (k : String) (v : String) :
    sql (Where.leaf k .iContains (.str v)) .postgreSQL
      = "UPPER(" ++ k ++ "::text) LIKE UPPER(?)" ∧
    sql (Where.leaf k .iContains (.str v)) .sqlite
      = k ++ " LIKE ? ESCAPE '\\'" ∧
    sql (Where.leaf k .iContains (.str v)) .mySqlServer
      = k ++ " LIKE ?" ∧
    ("UPPER(".data <:+: (sql (Where.leaf "name" .iContains (.str "x")) .postgreSQL).data) ∧
    ("LIKE UPPER(?)".data <:+: (sql (Where.leaf "name" .iContains (.str "x")) .postgreSQL).data) ∧
    ¬ ("UPPER".data <:+: (sql (Where.leaf "name" .iContains (.str "x")) .sqlite).data) ∧
    (" ESCAPE '\\'".data <:+: (sql (Where.leaf "name" .iContains (.str "x")) .sqlite).data) ∧
    ¬ ("UPPER".data <:+: (sql (Where.leaf "name" .iContains (.str "x")) .mySqlServer).data) ∧
    ¬ ("ESCAPE".data <:+: (sql (Where.leaf "name" .iContains (.str "x")) .mySqlServer).data) := by
  refine ⟨?_, ?_, ?_, by decide, by decide, by decide, by decide, by decide, by decide⟩
  · simp only [sql, ilikeSql, String.append_assoc]
    rfl
  · simp only [sql, ilikeSql, String.append_assoc]
    rfl
  · simp only [sql, ilikeSql, String.append_assoc]
    rfl

/-- C8: every combine node of a publicly built tree has at least two
operands, and the invariant is preserved by negation and further
combination (`Built` is closed under both); rendering and binding are
pure functions that never modify the tree. -/
theorem c8_combine_min_two (w : Where) (hb : Built w) : minTwoB w = true :=
  built_minTwo hb

/-- Witness for C8 at a concrete negated OR of two leaves, further
combined with a third leaf. -/
theorem c8_combine_min_two_witness :
    Built (wand (wnot (wor (Where.leaf "a" .equals (.int 1))
        (Where.leaf "b" .equals (.int 2)))) (Where.leaf "c" .equals (.int 3))) ∧
    minTwoB (wand (wnot (wor (Where.leaf "a" .equals (.int 1))
        (Where.leaf "b" .equals (.int 2)))) (Where.leaf "c" .equals (.int 3))) = true :=
  ⟨Built.and (Built.neg (Built.or (Built.leaf _ _ _) (Built.leaf _ _ _)))
      (Built.leaf _ _ _),
    c8_combine_min_two _
      (Built.and (Built.neg (Built.or (Built.leaf _ _ _) (Built.leaf _ _ _)))
        (Built.leaf _ _ _))⟩

/-- C9: an IEquals or INotEquals leaf binds its value completely
unchanged — no wildcard escaping — although `sql` renders the comparison
with the LIKE / NOT LIKE operator on every dialect, so a value holding a
literal `%` or `_` is passed through as a pattern. -/
theorem c9_iequals_binds_unescaped (k : String) (v : Variant) (db : DatabaseType) :
    bindValues (Where.leaf k .iEquals v) = [v] ∧
    bindValues (Where.leaf k .iNotEquals v) = [v] ∧
    sql (Where.leaf k .iEquals v) db = ilikeSql k "LIKE" db ∧
    sql (Where.leaf k .iNotEquals v) db = ilikeSql k "NOT LIKE" db ∧
    bindValues (Where.leaf "name" .iEquals (.str "50%_a")) = [.str "50%_a"] ∧
    bindValues (Where.leaf "name" .iNotEquals (.str "50%_a")) = [.str "50%_a"] ∧
    ("LIKE".data <:+: (sql (Where.leaf "name" .iEquals (.str "x")) db).data) ∧
    ("NOT LIKE".data <:+: (sql (Where.leaf "name" .iNotEquals (.str "x")) db).data) := by
  refine ⟨rfl, rfl, rfl, rfl, rfl, rfl, ?_, ?_⟩ <;> cases db <;> decide

/-- C10: an IsIn leaf with an empty value sequence renders as
`<key> IN ()` (or `<key> NOT IN ()` once negated) with zero placeholders,
and binds zero values, on every dialect. -/
theorem c10_isin_empty (k : String) (db : DatabaseType) (h : countQ k = 0) :
    sql (Where.leaf k .isIn (.list [])) db = k ++ " IN ()" ∧
    sql (wnot (Where.leaf k .isIn (.list []))) db = k ++ " NOT IN ()" ∧
    countQ (sql (Where.leaf k .isIn (.list [])) db) = 0 ∧
    countQ (sql (wnot (Where.leaf k .isIn (.list []))) db) = 0 ∧
    bindValues (Where.leaf k .isIn (.list [])) = [] ∧
    bindValues (wnot (Where.leaf k .isIn (.list []))) = [] := by
  have h1 : sql (Where.leaf k .isIn (.list [])) db = k ++ " IN ()" := by
    simp only [sql, Where.leaf, inBits, Variant.toList, List.length_nil, List.replicate,
      joinList, Bool.false_eq_true, if_false, String.append_assoc]
    rfl
  have h2 : sql (wnot (Where.leaf k .isIn (.list []))) db = k ++ " NOT IN ()" := by
    simp only [wnot, Where.leaf, WhereList.isEmpty, if_true, sql, inBits, Variant.toList,
      List.length_nil, List.replicate, joinList, Bool.not_false, if_true,
      String.append_assoc]
    rfl
  refine ⟨h1, h2, ?_, ?_, rfl, rfl⟩
  · rw [h1, countQ_append, h]
    decide
  · rw [h2, countQ_append, h]
    decide

/-- Witness for C10 at the key "name" on the PostgreSQL dialect. -/
theorem c10_isin_empty_witness :
    countQ "name" = 0 ∧
    (sql (Where.leaf "name" .isIn (.list [])) .postgreSQL = "name" ++ " IN ()" ∧
      sql (wnot (Where.leaf "name" .isIn (.list []))) .postgreSQL = "name" ++ " NOT IN ()" ∧
      countQ (sql (Where.leaf "name" .isIn (.list [])) .postgreSQL) = 0 ∧
      countQ (sql (wnot (Where.leaf "name" .isIn (.list []))) .postgreSQL) = 0 ∧
      bindValues (Where.leaf "name" .isIn (.list [])) = [] ∧
      bindValues (wnot (Where.leaf "name" .isIn (.list []))) = []) :=
  ⟨by decide, c10_isin_empty "name" .postgreSQL (by decide)⟩

end QDjango
